import Mathlib

/-!
Verification development for the Qutils repository (cleaner.py, merger.py).

The source programs are embedded shallowly:

* A time-of-day is a number of minutes after midnight (a `Nat` in
  `[0, 1440)`); a timestamp (`datetime`) is a number of minutes since an
  epoch, so the calendar date of a timestamp `n` is `n / 1440` and its
  time-of-day is `n % 1440`, matching the minute resolution of the bar
  data.
* Python sets built from lists of times are modelled as duplicate-free
  lists (`pySet`); every use of a set in the source is order-insensitive
  (length, membership, difference, sorting), so this is faithful.
* `pandas.sort_values` is modelled by insertion sort on the `datetime`
  key.  In every call site of the source the keys being sorted are
  pairwise distinct (the cleaner sorts after dropping duplicates; the
  merger sorts a concatenation of per-date disjoint series), so any
  comparison sort produces the same list and stability is irrelevant.
* Fallible code returns `Except String`; an uncaught Python exception is
  an `Except.error`.

The file is organised as definitions first (the embedding of both
programs), then theorems.
-/

namespace Qutils

set_option maxRecDepth 10000

def barTimesAux : Nat → Nat → Nat → Nat → Bool → List Nat
  | 0, _, _, _, _ => []
  | Nat.succ fuel, t, endT, period, skip =>
    if t < endT then
      if skip || !(t / 60 == 14) || !([0, 1, 2, 3, 4].contains (t % 60)) then
        t :: barTimesAux fuel ((t + period) % 1440) endT period skip
      else barTimesAux fuel ((t + period) % 1440) endT period skip
    else []

def get_full_list_of_daily_bar_times (startT endT period : Nat) (skip : Bool) :
    Option (List Nat) :=
  if startT ≤ endT then some (barTimesAux 1440 startT endT period skip) else none

def MKT_OPEN : Nat := 600

def MKT_CLOSE : Nat := 1120

def fiveMinGrid : List Nat := (List.range 104).map (fun k => 600 + 5 * k)

/-- The literal SPBFUT. -/
def tokSPBFUT : List Char := ['S', 'P', 'B', 'F', 'U', 'T']

/-- The literal SPFB. -/
def tokSPFB : List Char := ['S', 'P', 'F', 'B']

/-- Length consumed by a trailing greedy optional any-character. -/
def trailOpt : List Char → Nat
  | [] => 0
  | c :: _ => if c = '\n' then 0 else 1

/-- Match one alternative of the pattern (optional char, literal, optional
char) at the head of `s`; returns the matched length.  The leading optional
char is tried greedily first, as the regex engine does. -/
def tryPat (lit : List Char) (s : List Char) : Option Nat :=
  match s with
  | [] => none
  | c :: rest =>
    if (c != '\n') && lit.isPrefixOf rest then
      some (1 + lit.length + trailOpt (rest.drop lit.length))
    else if lit.isPrefixOf s then
      some (lit.length + trailOpt (s.drop lit.length))
    else none

/-- Match the whole alternation at the head of `s` (first alternative wins). -/
def matchAt (s : List Char) : Option Nat :=
  match tryPat tokSPBFUT s with
  | some n => some n
  | none => tryPat tokSPFB s

/-- `re.sub(pattern, '', s)`: delete every non-overlapping match, scanning
left to right.  Fuel is the remaining length; every step consumes at least
one character, so `s.length` units are enough. -/
def reSubAux : Nat → List Char → List Char
  | _, [] => []
  | 0, s => s
  | Nat.succ fuel, c :: rest =>
    match matchAt (c :: rest) with
    | some n => reSubAux fuel ((c :: rest).drop n)
    | none => c :: reSubAux fuel rest

/-- Delete every match of the ticker pattern from `s`. -/
def reSubTicker (s : List Char) : List Char := reSubAux s.length s

/-- Python `str.strip()`: drop leading and trailing whitespace. -/
def pyStrip (s : List Char) : List Char :=
  ((s.dropWhile Char.isWhitespace).reverse.dropWhile Char.isWhitespace).reverse

/-- The per-value ticker transformation of cleaner.py line 134-136. -/
def cleanTicker (s : List Char) : List Char := pyStrip (reSubTicker s)

/-- A value of the `per` column: a minute count or a symbolic period string. -/
inductive Per where
  | num (n : Nat)
  | sym (s : List Char)
  deriving DecidableEq

/-- One bar row of a loaded table. -/
structure Row where
  ticker : List Char
  per : Per
  dt : Nat
  vol : Int
  deriving DecidableEq

/-- A loaded table: which temporal columns are present, plus the rows. -/
@[ext] structure DataFrame where
  hasDateTime : Bool
  hasDateAndTime : Bool
  rows : List Row
  deriving DecidableEq

/-- The cleaner's command-line options that reach `process_dataframe`. -/
structure CleanArgs where
  stock : Bool
  extended_hours : Bool
  keep_date_time : Bool
  start_date : Option Nat
  end_date : Option Nat

/-- Calendar date of a row's timestamp (`dt.date`). -/
def dateOfRow (r : Row) : Nat := r.dt / 1440

/-- Time-of-day of a row's timestamp (`dt.time`). -/
def timeOfRow (r : Row) : Nat := r.dt % 1440

/-- `KNOWN_PERIODS` (cleaner.py 11-12) maps the minute periods 1, 2, 5, 10,
15, 30, 60 to themselves and every other value - including the symbolic
periods, whose dictionary value is `None` - to `None`; `KNOWN_PERIODS.get`
is falsy exactly when the result is `none` here. -/
def KNOWN_PERIODS_get : Per → Option Nat
  | Per.num n => if n ∈ [1, 2, 5, 10, 15, 30, 60] then some n else none
  | Per.sym _ => none

/-- Deduplicate, keeping first occurrences. -/
def pySetAux (seen : List Nat) : List Nat → List Nat
  | [] => []
  | x :: xs => if seen.contains x then pySetAux seen xs else x :: pySetAux (x :: seen) xs

/-- Model of `set(l)` for a list of numbers. -/
def pySet (l : List Nat) : List Nat := pySetAux [] l

/-- Model of set difference `a - b`. -/
def pyDiff (a b : List Nat) : List Nat := a.filter (fun x => !(b.contains x))

/-- Model of `sorted(...)` on numbers. -/
def pySortedNat (l : List Nat) : List Nat := l.insertionSort (· ≤ ·)

/-- One printed warning line: the optional missing-bars part carries
(count, first missing time, last missing time); the optional
irregular-bars part carries (count, last irregular time). -/
structure DayWarning where
  missing : Option (Nat × Nat × Nat)
  irregular : Option (Nat × Nat)
  deriving DecidableEq

/-- The full session grid as a set, `set(get_full_list_of_daily_bar_times(
MKT_OPEN, MKT_CLOSE, period_min, args.stock))`.  The assert of the grid
generator cannot fire (`MKT_OPEN <= MKT_CLOSE`), so `getD` is safe. -/
def fullTimesOf (periodMin : Nat) (stock : Bool) : List Nat :=
  pySet ((get_full_list_of_daily_bar_times MKT_OPEN MKT_CLOSE periodMin stock).getD [])

/-- Observed times-of-day of one date,
`set(df[df['datetime'].dt.date == date]['datetime'].dt.time)`. -/
def obsTimesOf (rows : List Row) (d : Nat) : List Nat :=
  pySet ((rows.filter (fun r => dateOfRow r == d)).map timeOfRow)

/-- `missing_bars_set = full_times_set - times_set` for one date. -/
def missingOf (rows : List Row) (periodMin : Nat) (stock : Bool) (d : Nat) : List Nat :=
  pyDiff (fullTimesOf periodMin stock) (obsTimesOf rows d)

/-- `irregular_bars_set = times_set - full_times_set` for one date. -/
def irregularOf (rows : List Row) (periodMin : Nat) (stock : Bool) (d : Nat) : List Nat :=
  pyDiff (obsTimesOf rows d) (fullTimesOf periodMin stock)

/-- `intraday_data_check(df, period_min)`: iterate the sorted unique dates
and collect a warning for every date with missing or irregular bars;
the first/last elements of the sorted sets are taken as the source does
with `sorted(list(s))[0]` and `[-1]`. -/
def dayWarningOf (rows : List Row) (periodMin : Nat) (stock : Bool) (d : Nat) :
    Option (Nat × DayWarning) :=
  if (missingOf rows periodMin stock d).length ≠ 0 ∨
      (irregularOf rows periodMin stock d).length ≠ 0 then
    some (d,
      { missing :=
          if (missingOf rows periodMin stock d).length ≠ 0 then
            some ((missingOf rows periodMin stock d).length,
              (pySortedNat (missingOf rows periodMin stock d)).headD 0,
              (pySortedNat (missingOf rows periodMin stock d)).getLastD 0)
          else none,
        irregular :=
          if (irregularOf rows periodMin stock d).length ≠ 0 then
            some ((irregularOf rows periodMin stock d).length,
              (pySortedNat (irregularOf rows periodMin stock d)).getLastD 0)
          else none })
  else none

def intraday_data_check (rows : List Row) (periodMin : Nat) (stock : Bool) :
    List (Nat × DayWarning) :=
  (pySortedNat (pySet (rows.map dateOfRow))).filterMap (dayWarningOf rows periodMin stock)

/-- Ticker normalization applied to every row (cleaner.py 134-136). -/
def normTicker (rows : List Row) : List Row :=
  rows.map (fun r => { r with ticker := cleanTicker r.ticker })

/-- The optional start/end calendar-date restriction (cleaner.py 168-173;
also merger.py 95-102).  A `date` object is always truthy, so the filter
runs exactly when the option is present. -/
def dateRangeFilter (startD endD : Option Nat) (rows : List Row) : List Row :=
  let rows1 := match startD with
    | some s => rows.filter (fun r => decide (s ≤ dateOfRow r))
    | none => rows
  match endD with
  | some e => rows1.filter (fun r => decide (dateOfRow r ≤ e))
  | none => rows1

/-- The extended-hours filter (cleaner.py 176-182): when the flag is unset,
keep only rows with time-of-day in `[MKT_OPEN, MKT_CLOSE)`. -/
def hoursFilter (extended : Bool) (rows : List Row) : List Row :=
  if extended then rows
  else rows.filter (fun r => decide (MKT_OPEN ≤ timeOfRow r) && decide (timeOfRow r < MKT_CLOSE))

/-- The row list reaching the duplicate check (cleaner.py 184), i.e. after
ticker normalization and both filters, still in input order. -/
def preDedupRows (df : DataFrame) (args : CleanArgs) : List Row :=
  hoursFilter args.extended_hours
    (dateRangeFilter args.start_date args.end_date (normTicker df.rows))

/-- `df.drop_duplicates('datetime')` keeps the first row of each timestamp,
preserving order. -/
def dropDupFirstAux (seen : List Nat) : List Row → List Row
  | [] => []
  | r :: rs =>
    if seen.contains r.dt then dropDupFirstAux seen rs
    else r :: dropDupFirstAux (r.dt :: seen) rs

/-- Drop duplicate timestamps, keeping first occurrences. -/
def dropDupFirst (rows : List Row) : List Row := dropDupFirstAux [] rows

/-- Row comparison used by `sort_values('datetime')`. -/
def rowLe (a b : Row) : Prop := a.dt ≤ b.dt

instance : DecidableRel rowLe := fun a b => Nat.decLe a.dt b.dt

instance : IsTotal Row rowLe := ⟨fun a b => Nat.le_total a.dt b.dt⟩

instance : IsTrans Row rowLe := ⟨fun _ _ _ h1 h2 => Nat.le_trans h1 h2⟩

/-- `df.sort_values('datetime')`.  At every call site of the source the
timestamps are pairwise distinct, so the choice of comparison sort does not
matter; insertion sort is used. -/
def sortRows (rows : List Row) : List Row := rows.insertionSort rowLe

/-- The `per` value of the first row, `df['per'].iloc[0]`. -/
def headPer (rows : List Row) : Per :=
  match rows with
  | [] => Per.sym []
  | r :: _ => r.per

/-- The data produced by a successful `process_dataframe` run: the cleaned
table plus, when the period is a known minute value, the gap-detector
warnings (cleaner.py 204-207). -/
def processCore (df : DataFrame) (args : CleanArgs) :
    DataFrame × Option (List (Nat × DayWarning)) :=
  let rows5 := sortRows (dropDupFirst (preDedupRows df args))
  (⟨true, df.hasDateAndTime && args.keep_date_time, rows5⟩,
   match KNOWN_PERIODS_get (headPer df.rows) with
   | some pm => some (intraday_data_check rows5 pm args.stock)
   | none => none)

/-- `process_dataframe(df, args)` (cleaner.py 120-209): fail when the `per`
column does not hold exactly one distinct value (also when the table is
empty) or when neither `date`/`time` nor `datetime` columns are present;
otherwise normalize, filter, deduplicate, sort, and run the intraday check
for known minute periods. -/
def process_dataframe (df : DataFrame) (args : CleanArgs) :
    Except String (DataFrame × Option (List (Nat × DayWarning))) :=
  match df.rows with
  | [] => Except.error "Period data is not unique"
  | r0 :: rest =>
    if (r0 :: rest).all (fun r => r.per == r0.per) then
      if df.hasDateAndTime || df.hasDateTime then
        Except.ok (processCore df args)
      else
        Except.error "Neither date, time nor datetime in source data"
    else
      Except.error "Period data is not unique"

/-- The date-range predicate a row must satisfy to pass `dateRangeFilter`. -/
@[reducible] def inDateRange (startD endD : Option Nat) (r : Row) : Prop :=
  (∀ s, startD = some s → s ≤ dateOfRow r) ∧ (∀ e, endD = some e → dateOfRow r ≤ e)

def c5args : CleanArgs := ⟨true, false, false, none, none⟩

def c5df : DataFrame :=
  ⟨true, false, [⟨['A'], Per.sym ['D'], 700, 1⟩, ⟨['A'], Per.sym ['D'], 600, 2⟩,
    ⟨['B'], Per.sym ['D'], 600, 3⟩]⟩

def c5out : DataFrame :=
  ⟨true, false, [⟨['A'], Per.sym ['D'], 600, 2⟩, ⟨['A'], Per.sym ['D'], 700, 1⟩]⟩

def c6df : DataFrame :=
  ⟨true, false, [⟨['A'], Per.sym ['D'], 300, 1⟩, ⟨['A'], Per.sym ['D'], 700, 2⟩]⟩

def c6out : DataFrame := ⟨true, false, [⟨['A'], Per.sym ['D'], 700, 2⟩]⟩

def c4df0 : DataFrame :=
  ⟨true, false,
    [⟨['S', 'P', 'B', 'x', 'S', 'P', 'B', 'F', 'U', 'T', 'y', 'F', 'U', 'T'],
      Per.sym ['D'], 600, 1⟩]⟩

def c4df1 : DataFrame :=
  ⟨true, false, [⟨['S', 'P', 'B', 'F', 'U', 'T'], Per.sym ['D'], 600, 1⟩]⟩

def c4df2 : DataFrame := ⟨true, false, [⟨[], Per.sym ['D'], 600, 1⟩]⟩

def c4wdf : DataFrame := ⟨true, false, [⟨['S', 'B'], Per.sym ['D'], 600, 1⟩]⟩

def c8rows : List Row :=
  (((List.range 104).map (fun k => 600 + 5 * k)).filter (fun t => t ≠ 720)).map
    (fun t => ⟨['A'], Per.num 5, t, 1⟩)

/-- The pandas dtypes occurring in these files. -/
inductive Dtype where
  | int64
  | float64
  | obj
  | datetime64
  deriving DecidableEq

/-- A merger input table. -/
structure MDataFrame where
  schema : List (List Char × Dtype)
  rows : List Row
  deriving DecidableEq

/-- The merger's options that reach `merge_data`. -/
structure MergeArgs where
  start_date : Option Nat
  end_date : Option Nat

/-- The column label datetime. -/
def colDatetime : List Char := ['d', 'a', 't', 'e', 't', 'i', 'm', 'e']

/-- The column label vol. -/
def colVol : List Char := ['v', 'o', 'l']

/-- The column label ticker. -/
def colTicker : List Char := ['t', 'i', 'c', 'k', 'e', 'r']

/-- The dtype of a named column, when the column exists. -/
def lookupDtype (name : List Char) (schema : List (List Char × Dtype)) : Option Dtype :=
  (schema.find? (fun p => p.1 == name)).map (fun p => p.2)

/-- The set of calendar dates of a series, `df['datetime'].dt.date.unique()`. -/
def datesOf (l : List Row) : Finset Nat := (l.map dateOfRow).toFinset

/-- Reduction of a mathematical integer to the int64 value that numpy and
pandas int64 arithmetic produce: two's-complement wrap-around modulo
2 ^ 64 into [-2 ^ 63, 2 ^ 63).  The literals are 2 ^ 63 and 2 ^ 64.
Because wrapping is reduction modulo 2 ^ 64, a chain of wrapping int64
additions yields the wrap of the exact sum. -/
def wrap64 (x : Int) : Int :=
  (x + 9223372036854775808) % 18446744073709551616 - 9223372036854775808

/-- Total traded volume of a date as the program computes it,
`df.groupby(df['datetime'].dt.date)['vol'].sum()` at one date: `vol` is
int64 (`check_source_data` enforces it), so the groupby sum is int64 and
wraps silently on overflow. -/
def dailyVol (l : List Row) (d : Nat) : Int :=
  wrap64 (((l.filter (fun r => dateOfRow r == d)).map Row.vol).sum)

/-- The dates served from file 1 (merger.py 111-114): dates only in file 1,
plus dates in both files whose volume difference is nonnegative.  The
pandas difference `df1_vol - df2_vol` is indexed by the union of the two
date sets with `NaN` where a date is missing from either side, and
`NaN >= 0` is false, so its `>= 0` selection is exactly the common dates
with nonnegative difference.  The difference of the two int64 daily sums
is itself int64 arithmetic, wrapping again, when the two date indexes
coincide; when they differ, pandas aligns into float64, which has the
same sign as the wrapped int64 difference whenever both wrapped sums
have magnitude at most 2 ^ 53 (float64 conversion and subtraction are
then exact in sign) - the regime the agreement clause of the merge
theorem makes explicit. -/
def df1Dates (l1 l2 : List Row) : Finset Nat :=
  (datesOf l1 \ datesOf l2) ∪
    (datesOf l1 ∩ datesOf l2).filter
      (fun d => 0 ≤ wrap64 (dailyVol l1 d - dailyVol l2 d))

/-- The dates served from file 2 (merger.py 115). -/
def df2Dates (l1 l2 : List Row) : Finset Nat := datesOf l2 \ df1Dates l1 l2

/-- The concatenation of the selected rows (merger.py 118-123). -/
def mergePick (l1 l2 : List Row) : List Row :=
  l1.filter (fun r => decide (dateOfRow r ∈ df1Dates l1 l2)) ++
    l2.filter (fun r => decide (dateOfRow r ∈ df2Dates l1 l2))

/-- `merge_data(df1, df2, args)` (merger.py 85-142): report, restrict to the
optional date range, select dates, concatenate, sort.  Its failure points
are all in the f-string diagnostics: for each input in turn, merger.py 90
evaluates `df['ticker'].unique()` - a KeyError when the table has no
ticker column - and then `unique_dates.min()`, which raises when the
table is empty (the ticker access of line 129 on the merged frame cannot
fail, both inputs having a ticker column by then, but `.min()` of line
130 raises when the merged result is empty).  The rows of the model
carry already-parsed timestamps, as `load_source_files` guarantees with
`parse_dates`, so the `.dt.date` accesses cannot fail here. -/
def merge_data (df1 df2 : MDataFrame) (args : MergeArgs) : Except String (List Row) :=
  if (lookupDtype colTicker df1.schema).isNone then
    Except.error "KeyError ticker"
  else if df1.rows.isEmpty then
    Except.error "zero-size array to reduction operation minimum"
  else if (lookupDtype colTicker df2.schema).isNone then
    Except.error "KeyError ticker"
  else if df2.rows.isEmpty then
    Except.error "zero-size array to reduction operation minimum"
  else if (sortRows (mergePick (dateRangeFilter args.start_date args.end_date df1.rows)
      (dateRangeFilter args.start_date args.end_date df2.rows))).isEmpty then
    Except.error "zero-size array to reduction operation minimum"
  else
    Except.ok (sortRows (mergePick (dateRangeFilter args.start_date args.end_date df1.rows)
      (dateRangeFilter args.start_date args.end_date df2.rows)))

def mschema : List (List Char × Dtype) :=
  [(colDatetime, Dtype.datetime64), (colTicker, Dtype.obj), (colVol, Dtype.int64)]

def mwA : MDataFrame := ⟨mschema, [⟨['A'], Per.num 5, 600, 100⟩]⟩

def mwC : MDataFrame := ⟨mschema, [⟨['C'], Per.num 5, 2040, 90⟩]⟩

theorem barTimesAux_succ (fuel t endT period : Nat) (skip : Bool) :
    barTimesAux (fuel + 1) t endT period skip =
      if t < endT then
        if skip || !(t / 60 == 14) || !([0, 1, 2, 3, 4].contains (t % 60)) then
          t :: barTimesAux fuel ((t + period) % 1440) endT period skip
        else barTimesAux fuel ((t + period) % 1440) endT period skip
      else [] := rfl

theorem barAppendCond (t : Nat) (skip : Bool) :
    (skip || !(t / 60 == 14) || !([0, 1, 2, 3, 4].contains (t % 60))) = true ↔
      (skip = true ∨ ¬(840 ≤ t ∧ t ≤ 844)) := by
  have hcont : ([0, 1, 2, 3, 4].contains (t % 60) = false) ↔ ¬(t % 60 ≤ 4) := by
    rw [← Bool.not_eq_true]
    simp only [List.contains]
    rw [List.elem_iff]
    simp only [List.mem_cons, List.not_mem_nil, or_false]
    omega
  cases skip with
  | true => simp
  | false =>
    simp only [Bool.false_or, Bool.or_eq_true, Bool.not_eq_true', beq_eq_false_iff_ne,
      hcont, false_or]
    constructor
    · intro h
      refine Or.inr ?_
      rcases h with h | h <;> omega
    · intro h
      rcases h with h | h
      · cases h
      · by_cases h14 : t / 60 = 14
        · right; omega
        · left; exact h14

theorem barTimesAux_lt (endT period : Nat) (skip : Bool) :
    ∀ fuel t, ∀ x ∈ barTimesAux fuel t endT period skip, x < endT := by
  intro fuel
  induction fuel with
  | zero => intro t x hx; simp [barTimesAux] at hx
  | succ f ih =>
    intro t x hx
    rw [barTimesAux_succ] at hx
    by_cases h : t < endT
    · rw [if_pos h] at hx
      by_cases hc : (skip || !(t / 60 == 14) || !([0, 1, 2, 3, 4].contains (t % 60))) = true
      · rw [if_pos hc] at hx
        rcases List.mem_cons.mp hx with rfl | hx
        · exact h
        · exact ih _ x hx
      · rw [if_neg hc] at hx
        exact ih _ x hx
    · rw [if_neg h] at hx
      simp at hx

theorem barTimesAux_fuel_succ (endT period : Nat) (skip : Bool) (hp : 1 ≤ period)
    (hw : endT + period ≤ 1440) :
    ∀ fuel t, endT - t ≤ fuel →
      barTimesAux (fuel + 1) t endT period skip = barTimesAux fuel t endT period skip := by
  intro fuel
  induction fuel with
  | zero =>
    intro t ht
    have h : ¬ t < endT := by omega
    rw [barTimesAux_succ, if_neg h]
    rfl
  | succ f ih =>
    intro t ht
    by_cases h : t < endT
    · have hrec : barTimesAux (f + 1) ((t + period) % 1440) endT period skip
          = barTimesAux f ((t + period) % 1440) endT period skip := by
        apply ih
        have hmod : (t + period) % 1440 = t + period := Nat.mod_eq_of_lt (by omega)
        rw [hmod]; omega
      rw [barTimesAux_succ (f + 1) t, hrec, barTimesAux_succ f t]
    · rw [barTimesAux_succ (f + 1) t, barTimesAux_succ f t, if_neg h, if_neg h]

theorem barTimesAux_fuel_add (endT period : Nat) (skip : Bool) (hp : 1 ≤ period)
    (hw : endT + period ≤ 1440) (base t : Nat) (hb : endT - t ≤ base) :
    ∀ k, barTimesAux (base + k) t endT period skip = barTimesAux base t endT period skip := by
  intro k
  induction k with
  | zero => rfl
  | succ n ih =>
    have hstep := barTimesAux_fuel_succ endT period skip hp hw (base + n) t (by omega)
    calc barTimesAux (base + n + 1) t endT period skip
        = barTimesAux (base + n) t endT period skip := hstep
      _ = barTimesAux base t endT period skip := ih

/-- Claim C9: the session time-grid loop terminates whenever the session
start is at most the end, the period is at least one minute, and the end
time plus the period does not pass midnight: below the end time the cursor
increases by the period without wrapping, so 1440 fuel units are exact and
every larger fuel gives the same list. -/
theorem grid_generator_terminates (startT endT period : Nat) (skip : Bool)
    (h1 : startT ≤ endT) (hp : 1 ≤ period) (hw : endT + period ≤ 1440) :
    get_full_list_of_daily_bar_times startT endT period skip
      = some (barTimesAux 1440 startT endT period skip) ∧
    ∀ fuel, 1440 ≤ fuel →
      barTimesAux fuel startT endT period skip
        = barTimesAux 1440 startT endT period skip := by
  constructor
  · simp [get_full_list_of_daily_bar_times, h1]
  · intro fuel hf
    have heq : fuel = 1440 + (fuel - 1440) := by omega
    rw [heq]
    exact barTimesAux_fuel_add endT period skip hp hw 1440 startT (by omega) (fuel - 1440)

theorem grid_generator_terminates_witness :
    get_full_list_of_daily_bar_times 600 1120 5 false
        = some (barTimesAux 1440 600 1120 5 false) ∧
      barTimesAux 2000 600 1120 5 false = barTimesAux 1440 600 1120 5 false :=
  ⟨(grid_generator_terminates 600 1120 5 false (by decide) (by decide) (by decide)).1,
   (grid_generator_terminates 600 1120 5 false (by decide) (by decide) (by decide)).2
      2000 (by decide)⟩

/-- Claim C3 (amended): for start at most end and a positive period the
generated sequence contains no time at or past the end; and it begins with
the start time provided additionally that start is strictly before end and
start is not suppressed by the clearing-break exclusion (skip flag set, or
start outside 14:00-14:04). -/
theorem grid_bounds (startT endT period : Nat) (skip : Bool)
    (h1 : startT ≤ endT) (hp : 1 ≤ period) :
    ∃ l, get_full_list_of_daily_bar_times startT endT period skip = some l ∧
      (∀ x ∈ l, x < endT) ∧
      (startT < endT → (skip = true ∨ ¬(840 ≤ startT ∧ startT ≤ 844)) →
        l.head? = some startT) := by
  refine ⟨barTimesAux 1440 startT endT period skip,
    by simp [get_full_list_of_daily_bar_times, h1],
    fun x hx => barTimesAux_lt endT period skip 1440 startT x hx, ?_⟩
  intro hlt hcond
  have hc : (skip || !(startT / 60 == 14) || !([0, 1, 2, 3, 4].contains (startT % 60))) = true :=
    (barAppendCond startT skip).mpr hcond
  show (barTimesAux (1439 + 1) startT endT period skip).head? = some startT
  rw [barTimesAux_succ, if_pos hlt, if_pos hc]
  rfl

theorem grid_bounds_witness :
    (600 : Nat) ≤ 1120 ∧ (1 : Nat) ≤ 5 ∧
      ∃ l, get_full_list_of_daily_bar_times 600 1120 5 false = some l ∧
        (∀ x ∈ l, x < 1120) ∧
        (600 < 1120 → (false = true ∨ ¬(840 ≤ 600 ∧ 600 ≤ 844)) → l.head? = some 600) :=
  ⟨by decide, by decide, grid_bounds 600 1120 5 false (by decide) (by decide)⟩

/-- Claim C3 counterexample: with the exclusion active, a session starting
at 14:00 (with end 14:10, period 5) yields the sequence [14:05], whose
first element is not the start time, though start is at most end and the
period is positive. -/
theorem grid_head_counterexample :
    (840 : Nat) ≤ 850 ∧ (0 : Nat) < 5 ∧
      get_full_list_of_daily_bar_times 840 850 5 false = some [845] ∧
      ([845] : List Nat).head? ≠ some 840 := by decide

/-- Claim C2 (amended): for the session [10:00, 18:40) with a 5-minute
period, the stock-mode grid (exclusion disabled) is one time every five
minutes; the futures-mode grid (exclusion enabled) is that grid minus
14:00 alone, and contains nothing inside 14:00-14:04; the exclusion-window
times 14:01-14:04 are on neither grid, because they are not multiples of
five minutes from 10:00. -/
theorem five_minute_grid_breaks :
    get_full_list_of_daily_bar_times 600 1120 5 true = some fiveMinGrid ∧
    get_full_list_of_daily_bar_times 600 1120 5 false
      = some (fiveMinGrid.filter (fun t => !(decide (840 ≤ t) && decide (t ≤ 844)))) ∧
    (∀ t ∈ (get_full_list_of_daily_bar_times 600 1120 5 false).getD [],
      ¬(840 ≤ t ∧ t ≤ 844)) ∧
    840 ∈ fiveMinGrid ∧ 841 ∉ fiveMinGrid ∧ 842 ∉ fiveMinGrid ∧
    843 ∉ fiveMinGrid ∧ 844 ∉ fiveMinGrid := by decide

/-- Claim C2 counterexample: the grid with the exclusion disabled does not
contain 14:01 (nor 14:02-14:04), contrary to the claim that those five
times are present - a 5-minute grid from 10:00 only ever hits 14:00. -/
theorem five_minute_grid_counterexample :
    (get_full_list_of_daily_bar_times 600 1120 5 true).isSome = true ∧
    841 ∉ (get_full_list_of_daily_bar_times 600 1120 5 true).getD [] := by decide

theorem natContains_iff (l : List Nat) (x : Nat) : l.contains x = true ↔ x ∈ l := by
  simp only [List.contains]
  exact List.elem_iff

theorem map_eq_self_of {a : Type} (l : List a) (f : a → a) (h : ∀ x ∈ l, f x = x) :
    l.map f = l := by
  induction l with
  | nil => rfl
  | cons x t ih =>
    simp only [List.map_cons]
    rw [h x (List.mem_cons_self x t), ih (fun y hy => h y (List.mem_cons_of_mem x hy))]

theorem mem_pySetAux (l : List Nat) : ∀ (seen : List Nat) (x : Nat),
    x ∈ pySetAux seen l ↔ x ∈ l ∧ x ∉ seen := by
  induction l with
  | nil => intro seen x; simp [pySetAux]
  | cons a t ih =>
    intro seen x
    by_cases h : seen.contains a = true
    · rw [pySetAux, if_pos h, ih]
      constructor
      · rintro ⟨hx, hs⟩
        exact ⟨List.mem_cons_of_mem a hx, hs⟩
      · rintro ⟨hx, hs⟩
        rcases List.mem_cons.mp hx with rfl | hx
        · exact absurd ((natContains_iff seen x).mp h) hs
        · exact ⟨hx, hs⟩
    · rw [pySetAux, if_neg h]
      have ha : a ∉ seen := fun hmem => h ((natContains_iff seen a).mpr hmem)
      constructor
      · intro hx
        rcases List.mem_cons.mp hx with rfl | hx
        · exact ⟨List.mem_cons_self x t, ha⟩
        · obtain ⟨hxt, hxs⟩ := (ih (a :: seen) x).mp hx
          exact ⟨List.mem_cons_of_mem a hxt, fun hm => hxs (List.mem_cons_of_mem a hm)⟩
      · rintro ⟨hx, hs⟩
        by_cases hxa : x = a
        · exact hxa ▸ List.mem_cons_self a _
        · rcases List.mem_cons.mp hx with rfl | hxt
          · exact absurd rfl hxa
          · refine List.mem_cons_of_mem a ((ih (a :: seen) x).mpr ⟨hxt, ?_⟩)
            intro hm
            rcases List.mem_cons.mp hm with rfl | hm
            · exact hxa rfl
            · exact hs hm

theorem mem_pySet (l : List Nat) (x : Nat) : x ∈ pySet l ↔ x ∈ l := by
  rw [pySet, mem_pySetAux]
  simp

theorem pySetAux_nodup (l : List Nat) : ∀ seen : List Nat, (pySetAux seen l).Nodup := by
  induction l with
  | nil => intro seen; simp [pySetAux]
  | cons a t ih =>
    intro seen
    by_cases h : seen.contains a = true
    · rw [pySetAux, if_pos h]
      exact ih seen
    · rw [pySetAux, if_neg h]
      refine List.nodup_cons.mpr ⟨?_, ih (a :: seen)⟩
      intro hmem
      exact ((mem_pySetAux t (a :: seen) a).mp hmem).2 (List.mem_cons_self a seen)

theorem pySet_nodup (l : List Nat) : (pySet l).Nodup := pySetAux_nodup l []

theorem mem_pySortedNat (l : List Nat) (x : Nat) : x ∈ pySortedNat l ↔ x ∈ l :=
  List.mem_insertionSort (fun a b => a ≤ b)

theorem pySortedNat_sorted (l : List Nat) : List.Sorted (fun a b => a ≤ b) (pySortedNat l) :=
  List.sorted_insertionSort (fun a b => a ≤ b) l

theorem pySortedNat_perm (l : List Nat) : List.Perm (pySortedNat l) l :=
  List.perm_insertionSort (fun a b => a ≤ b) l

theorem getLastD_mem : ∀ m : List Nat, m ≠ [] → m.getLastD 0 ∈ m := by
  intro m
  induction m with
  | nil => intro h; exact absurd rfl h
  | cons a t ih =>
    intro _
    cases t with
    | nil => simp
    | cons b u =>
      have heq : ((a :: b :: u).getLastD 0) = ((b :: u).getLastD 0) := rfl
      rw [heq]
      exact List.mem_cons_of_mem a (ih (by simp))

theorem getLastD_max_of_sorted : ∀ m : List Nat, List.Sorted (fun a b => a ≤ b) m →
    ∀ x ∈ m, x ≤ m.getLastD 0 := by
  intro m
  induction m with
  | nil => intro _ x hx; simp at hx
  | cons a t ih =>
    intro hs x hx
    cases t with
    | nil =>
      rcases List.mem_cons.mp hx with rfl | hx
      · simp
      · simp at hx
    | cons b u =>
      have heq : ((a :: b :: u).getLastD 0) = ((b :: u).getLastD 0) := rfl
      rw [heq]
      rcases List.mem_cons.mp hx with rfl | hx
      · have hab : x ≤ b := List.rel_of_sorted_cons hs b (List.mem_cons_self b u)
        have hb := ih hs.of_cons b (List.mem_cons_self b u)
        exact le_trans hab hb
      · exact ih hs.of_cons x hx

theorem sorted_min_max (l : List Nat) (hl : l ≠ []) :
    ((pySortedNat l).headD 0 ∈ l ∧ ∀ x ∈ l, (pySortedNat l).headD 0 ≤ x) ∧
      ((pySortedNat l).getLastD 0 ∈ l ∧ ∀ x ∈ l, x ≤ (pySortedNat l).getLastD 0) := by
  have hperm := pySortedNat_perm l
  have hs := pySortedNat_sorted l
  have hne : pySortedNat l ≠ [] := by
    intro h
    rw [h] at hperm
    exact hl hperm.symm.eq_nil
  constructor
  · cases hsl : pySortedNat l with
    | nil => exact absurd hsl hne
    | cons y ys =>
      rw [hsl] at hperm hs
      constructor
      · exact hperm.subset (List.mem_cons_self y ys)
      · intro x hx
        rcases List.mem_cons.mp (hperm.mem_iff.mpr hx) with rfl | hx2
        · exact le_refl x
        · exact List.rel_of_sorted_cons hs x hx2
  · constructor
    · exact hperm.subset (getLastD_mem _ hne)
    · intro x hx
      exact getLastD_max_of_sorted _ hs x (hperm.mem_iff.mpr hx)

theorem sortRows_perm (l : List Row) : List.Perm (sortRows l) l :=
  List.perm_insertionSort rowLe l

theorem sortRows_sorted (l : List Row) : List.Sorted rowLe (sortRows l) :=
  List.sorted_insertionSort rowLe l

theorem sortRows_eq_self {l : List Row} (h : List.Sorted rowLe l) : sortRows l = l :=
  h.insertionSort_eq

theorem mem_sortRows {l : List Row} {r : Row} : r ∈ sortRows l ↔ r ∈ l :=
  List.mem_insertionSort rowLe

theorem mem_dropDupFirstAux (l : List Row) : ∀ (seen : List Nat) (r : Row),
    r ∈ dropDupFirstAux seen l → r ∈ l := by
  induction l with
  | nil => intro seen r h; simp [dropDupFirstAux] at h
  | cons a t ih =>
    intro seen r h
    by_cases hc : seen.contains a.dt = true
    · rw [dropDupFirstAux, if_pos hc] at h
      exact List.mem_cons_of_mem a (ih seen r h)
    · rw [dropDupFirstAux, if_neg hc] at h
      rcases List.mem_cons.mp h with rfl | h
      · exact List.mem_cons_self r t
      · exact List.mem_cons_of_mem a (ih (a.dt :: seen) r h)

theorem dropDupFirstAux_dt_spec (l : List Row) : ∀ seen : List Nat,
    ((dropDupFirstAux seen l).map Row.dt).Nodup ∧
      ∀ r ∈ dropDupFirstAux seen l, r.dt ∉ seen := by
  induction l with
  | nil => intro seen; constructor <;> simp [dropDupFirstAux]
  | cons a t ih =>
    intro seen
    by_cases hc : seen.contains a.dt = true
    · rw [dropDupFirstAux, if_pos hc]
      exact ih seen
    · rw [dropDupFirstAux, if_neg hc]
      obtain ⟨ihn, ihs⟩ := ih (a.dt :: seen)
      refine ⟨?_, ?_⟩
      · simp only [List.map_cons, List.nodup_cons]
        refine ⟨?_, ihn⟩
        intro hmem
        obtain ⟨r, hr, hrdt⟩ := List.mem_map.mp hmem
        exact ihs r hr (hrdt ▸ List.mem_cons_self a.dt seen)
      · intro r hr
        rcases List.mem_cons.mp hr with rfl | hr
        · exact fun hmem => hc ((natContains_iff seen r.dt).mpr hmem)
        · exact fun hmem => ihs r hr (List.mem_cons_of_mem a.dt hmem)

theorem dropDupFirst_nodup (l : List Row) : ((dropDupFirst l).map Row.dt).Nodup :=
  (dropDupFirstAux_dt_spec l []).1

theorem mem_dropDupFirst {l : List Row} {r : Row} (h : r ∈ dropDupFirst l) : r ∈ l :=
  mem_dropDupFirstAux l [] r h

theorem dropDupFirstAux_eq_self (l : List Row) : ∀ seen : List Nat,
    (l.map Row.dt).Nodup → (∀ r ∈ l, r.dt ∉ seen) → dropDupFirstAux seen l = l := by
  induction l with
  | nil => intro seen _ _; rfl
  | cons a t ih =>
    intro seen hnd hs
    have hc : ¬ seen.contains a.dt = true := fun h =>
      hs a (List.mem_cons_self a t) ((natContains_iff seen a.dt).mp h)
    rw [dropDupFirstAux, if_neg hc]
    congr 1
    simp only [List.map_cons, List.nodup_cons] at hnd
    refine ih (a.dt :: seen) hnd.2 ?_
    intro r hr hmem
    rcases List.mem_cons.mp hmem with heq | hmem2
    · exact hnd.1 (heq ▸ List.mem_map.mpr ⟨r, hr, heq ▸ rfl⟩)
    · exact hs r (List.mem_cons_of_mem a hr) hmem2

theorem dropDupFirst_eq_self {l : List Row} (h : (l.map Row.dt).Nodup) :
    dropDupFirst l = l :=
  dropDupFirstAux_eq_self l [] h (by simp)

theorem dropDupFirstAux_find (l : List Row) : ∀ (seen : List Nat) (t : Nat),
    t ∉ seen → (∃ r ∈ l, r.dt = t) →
    ∃ r, l.find? (fun r => r.dt == t) = some r ∧ r ∈ dropDupFirstAux seen l := by
  induction l with
  | nil => intro seen t _ hex; simp at hex
  | cons a u ih =>
    intro seen t hts hex
    by_cases hat : a.dt = t
    · refine ⟨a, ?_, ?_⟩
      · rw [List.find?_cons_of_pos]
        exact beq_iff_eq.mpr hat
      · have hc : ¬ seen.contains a.dt = true := fun h =>
          hts (hat ▸ (natContains_iff seen a.dt).mp h)
        rw [dropDupFirstAux, if_neg hc]
        exact List.mem_cons_self a _
    · have hex2 : ∃ r ∈ u, r.dt = t := by
        obtain ⟨r, hr, hrt⟩ := hex
        rcases List.mem_cons.mp hr with rfl | hr
        · exact absurd hrt hat
        · exact ⟨r, hr, hrt⟩
      have hfind : (a :: u).find? (fun r => r.dt == t) = u.find? (fun r => r.dt == t) := by
        rw [List.find?_cons_of_neg]
        simp [hat]
      by_cases hc : seen.contains a.dt = true
      · obtain ⟨r, hfr, hmem⟩ := ih seen t hts hex2
        refine ⟨r, by rw [hfind]; exact hfr, ?_⟩
        rw [dropDupFirstAux, if_pos hc]
        exact hmem
      · have hts2 : t ∉ a.dt :: seen := by
          intro hm
          rcases List.mem_cons.mp hm with heq | hm2
          · exact hat heq.symm
          · exact hts hm2
        obtain ⟨r, hfr, hmem⟩ := ih (a.dt :: seen) t hts2 hex2
        refine ⟨r, by rw [hfind]; exact hfr, ?_⟩
        rw [dropDupFirstAux, if_neg hc]
        exact List.mem_cons_of_mem a hmem

theorem dateRangeFilter_none_none (l : List Row) : dateRangeFilter none none l = l := rfl

theorem dateRangeFilter_some_none (s : Nat) (l : List Row) :
    dateRangeFilter (some s) none l = l.filter (fun r => decide (s ≤ dateOfRow r)) := rfl

theorem dateRangeFilter_none_some (e : Nat) (l : List Row) :
    dateRangeFilter none (some e) l = l.filter (fun r => decide (dateOfRow r ≤ e)) := rfl

theorem dateRangeFilter_some_some (s e : Nat) (l : List Row) :
    dateRangeFilter (some s) (some e) l
      = (l.filter (fun r => decide (s ≤ dateOfRow r))).filter
          (fun r => decide (dateOfRow r ≤ e)) := rfl

theorem mem_dateRangeFilter {startD endD : Option Nat} {l : List Row} {r : Row}
    (h : r ∈ dateRangeFilter startD endD l) : r ∈ l ∧ inDateRange startD endD r := by
  cases startD with
  | none =>
    cases endD with
    | none =>
      rw [dateRangeFilter_none_none] at h
      exact ⟨h, And.intro (fun s hss => by cases hss) (fun e hee => by cases hee)⟩
    | some e =>
      rw [dateRangeFilter_none_some] at h
      obtain ⟨hmem, hp⟩ := List.mem_filter.mp h
      refine ⟨hmem, And.intro (fun s hss => by cases hss) (fun e2 hee => ?_)⟩
      cases hee
      exact of_decide_eq_true hp
  | some s =>
    cases endD with
    | none =>
      rw [dateRangeFilter_some_none] at h
      obtain ⟨hmem, hp⟩ := List.mem_filter.mp h
      refine ⟨hmem, And.intro (fun s2 hss => ?_) (fun e hee => by cases hee)⟩
      cases hss
      exact of_decide_eq_true hp
    | some e =>
      rw [dateRangeFilter_some_some] at h
      obtain ⟨hmem1, hp1⟩ := List.mem_filter.mp h
      obtain ⟨hmem2, hp2⟩ := List.mem_filter.mp hmem1
      refine ⟨hmem2, And.intro (fun s2 hss => ?_) (fun e2 hee => ?_)⟩
      · cases hss
        exact of_decide_eq_true hp2
      · cases hee
        exact of_decide_eq_true hp1

theorem dateRangeFilter_eq_self {startD endD : Option Nat} {l : List Row}
    (h : ∀ r ∈ l, inDateRange startD endD r) : dateRangeFilter startD endD l = l := by
  cases startD with
  | none =>
    cases endD with
    | none => rfl
    | some e =>
      rw [dateRangeFilter_none_some]
      exact List.filter_eq_self.mpr fun r hr => decide_eq_true ((h r hr).2 e rfl)
  | some s =>
    have h1 : l.filter (fun r => decide (s ≤ dateOfRow r)) = l :=
      List.filter_eq_self.mpr fun r hr => decide_eq_true ((h r hr).1 s rfl)
    cases endD with
    | none => rw [dateRangeFilter_some_none]; exact h1
    | some e =>
      rw [dateRangeFilter_some_some, h1]
      exact List.filter_eq_self.mpr fun r hr => decide_eq_true ((h r hr).2 e rfl)

theorem hoursFilter_true (l : List Row) : hoursFilter true l = l := rfl

theorem hoursFilter_false (l : List Row) :
    hoursFilter false l
      = l.filter (fun r => decide (MKT_OPEN ≤ timeOfRow r) && decide (timeOfRow r < MKT_CLOSE)) :=
  rfl

theorem mem_hoursFilter {ext : Bool} {l : List Row} {r : Row}
    (h : r ∈ hoursFilter ext l) :
    r ∈ l ∧ (ext = false → MKT_OPEN ≤ timeOfRow r ∧ timeOfRow r < MKT_CLOSE) := by
  cases ext with
  | true =>
    rw [hoursFilter_true] at h
    exact ⟨h, fun hf => by cases hf⟩
  | false =>
    rw [hoursFilter_false] at h
    obtain ⟨hmem, hp⟩ := List.mem_filter.mp h
    rw [Bool.and_eq_true, decide_eq_true_eq, decide_eq_true_eq] at hp
    exact ⟨hmem, fun _ => hp⟩

theorem hoursFilter_eq_self {ext : Bool} {l : List Row}
    (h : ∀ r ∈ l, MKT_OPEN ≤ timeOfRow r ∧ timeOfRow r < MKT_CLOSE) :
    hoursFilter ext l = l := by
  cases ext with
  | true => rfl
  | false =>
    rw [hoursFilter_false]
    refine List.filter_eq_self.mpr fun r hr => ?_
    rw [Bool.and_eq_true, decide_eq_true_eq, decide_eq_true_eq]
    exact h r hr

theorem mem_normTicker {l : List Row} {r : Row} (h : r ∈ normTicker l) :
    ∃ r0 ∈ l, r = { r0 with ticker := cleanTicker r0.ticker } := by
  obtain ⟨r0, hr0, heq⟩ := List.mem_map.mp h
  exact ⟨r0, hr0, heq.symm⟩

theorem normTicker_eq_self {l : List Row} (h : ∀ r ∈ l, cleanTicker r.ticker = r.ticker) :
    normTicker l = l := by
  refine map_eq_self_of l _ fun r hr => ?_
  rw [h r hr]

theorem mem_preDedupRows_orig {df : DataFrame} {args : CleanArgs} {r : Row}
    (h : r ∈ preDedupRows df args) :
    ∃ r0 ∈ df.rows, r.per = r0.per ∧ r.dt = r0.dt := by
  obtain ⟨h1, _⟩ := mem_hoursFilter h
  obtain ⟨h2, _⟩ := mem_dateRangeFilter h1
  obtain ⟨r0, hr0, heq⟩ := mem_normTicker h2
  exact ⟨r0, hr0, by rw [heq], by rw [heq]⟩

theorem mem_preDedupRows_props {df : DataFrame} {args : CleanArgs} {r : Row}
    (h : r ∈ preDedupRows df args) :
    inDateRange args.start_date args.end_date r ∧
      (args.extended_hours = false → MKT_OPEN ≤ timeOfRow r ∧ timeOfRow r < MKT_CLOSE) := by
  obtain ⟨h1, hh⟩ := mem_hoursFilter h
  obtain ⟨_, hd⟩ := mem_dateRangeFilter h1
  exact ⟨hd, hh⟩

theorem processCore_rows (df : DataFrame) (args : CleanArgs) :
    (processCore df args).1.rows = sortRows (dropDupFirst (preDedupRows df args)) := rfl

theorem processCore_flags (df : DataFrame) (args : CleanArgs) :
    (processCore df args).1.hasDateTime = true ∧
      (processCore df args).1.hasDateAndTime = (df.hasDateAndTime && args.keep_date_time) :=
  ⟨rfl, rfl⟩

theorem process_dataframe_nil {df : DataFrame} (args : CleanArgs) (hrows : df.rows = []) :
    process_dataframe df args = Except.error "Period data is not unique" := by
  rw [process_dataframe, hrows]

theorem process_dataframe_cons {df : DataFrame} (args : CleanArgs) {r0 : Row} {rest : List Row}
    (hrows : df.rows = r0 :: rest) :
    process_dataframe df args =
      if (r0 :: rest).all (fun r => r.per == r0.per) then
        if df.hasDateAndTime || df.hasDateTime then
          Except.ok (processCore df args)
        else
          Except.error "Neither date, time nor datetime in source data"
      else
        Except.error "Period data is not unique" := by
  rw [process_dataframe, hrows]

theorem process_ok_elim {df : DataFrame} {args : CleanArgs}
    {out : DataFrame} {w : Option (List (Nat × DayWarning))}
    (h : process_dataframe df args = Except.ok (out, w)) :
    out = (processCore df args).1 ∧ w = (processCore df args).2 ∧
      df.rows ≠ [] ∧ (∀ r ∈ df.rows, r.per = headPer df.rows) ∧
      (df.hasDateAndTime || df.hasDateTime) = true := by
  cases hrows : df.rows with
  | nil =>
    rw [process_dataframe_nil args hrows] at h
    cases h
  | cons r0 rest =>
    rw [process_dataframe_cons args hrows] at h
    by_cases hall : (r0 :: rest).all (fun r => r.per == r0.per) = true
    · rw [if_pos hall] at h
      by_cases htc : (df.hasDateAndTime || df.hasDateTime) = true
      · rw [if_pos htc] at h
        cases h
        refine ⟨rfl, rfl, by simp, ?_, htc⟩
        intro r hr
        have := List.all_eq_true.mp hall r hr
        show r.per = r0.per
        exact beq_iff_eq.mp this
      · rw [if_neg htc] at h
        cases h
    · rw [if_neg hall] at h
      cases h

theorem mem_cleaned {df : DataFrame} {args : CleanArgs} {r : Row}
    (h : r ∈ (processCore df args).1.rows) : r ∈ preDedupRows df args := by
  rw [processCore_rows] at h
  exact mem_dropDupFirst (mem_sortRows.mp h)

theorem processCore_snd (df : DataFrame) (args : CleanArgs) :
    (processCore df args).2 =
      match KNOWN_PERIODS_get (headPer df.rows) with
      | some pm =>
        some (intraday_data_check (sortRows (dropDupFirst (preDedupRows df args))) pm args.stock)
      | none => none := rfl

/-- Claim C5: on every table the pipeline accepts, the output has strictly
increasing timestamps, and the row kept for a duplicated timestamp is the
first occurrence, in input order, among the rows reaching the duplicate
check. -/
theorem cleaned_series_strictly_increasing (df : DataFrame) (args : CleanArgs)
    (out : DataFrame) (w : Option (List (Nat × DayWarning)))
    (h : process_dataframe df args = Except.ok (out, w)) :
    List.Pairwise (fun a b : Row => a.dt < b.dt) out.rows ∧
    ∀ t : Nat, (∃ r ∈ preDedupRows df args, r.dt = t) →
      ∃ r, (preDedupRows df args).find? (fun r => r.dt == t) = some r ∧ r ∈ out.rows := by
  obtain ⟨hout, -, -, -, -⟩ := process_ok_elim h
  subst hout
  constructor
  · have hsorted := sortRows_sorted (dropDupFirst (preDedupRows df args))
    have hnodup : ((sortRows (dropDupFirst (preDedupRows df args))).map Row.dt).Nodup :=
      (((sortRows_perm _).map Row.dt).nodup_iff).mpr (dropDupFirst_nodup _)
    rw [processCore_rows]
    have hne2 : List.Pairwise (fun a b : Row => a.dt ≠ b.dt)
        (sortRows (dropDupFirst (preDedupRows df args))) := List.pairwise_map.mp hnodup
    exact (hsorted.and hne2).imp fun hab => lt_of_le_of_ne hab.1 hab.2
  · intro t hex
    obtain ⟨r, hfind, hmem⟩ := dropDupFirstAux_find (preDedupRows df args) [] t (by simp) hex
    exact ⟨r, hfind, by rw [processCore_rows]; exact mem_sortRows.mpr hmem⟩

theorem cleaned_series_strictly_increasing_witness :
    (∃ r ∈ preDedupRows c5df c5args, r.dt = 600) ∧
    List.Pairwise (fun a b : Row => a.dt < b.dt) c5out.rows ∧
    ∃ r, (preDedupRows c5df c5args).find? (fun r => r.dt == 600) = some r ∧ r ∈ c5out.rows := by
  have H := cleaned_series_strictly_increasing c5df c5args c5out none rfl
  exact ⟨by decide, H.1, H.2 600 (by decide)⟩

/-- Claim C6: with the extended-hours option unset every output row lies in
the session window (so any row outside it is absent), and with the option
set the pipeline is the same pipeline without the time-of-day filter. -/
theorem session_window_filtering (df : DataFrame) (args : CleanArgs)
    (out : DataFrame) (w : Option (List (Nat × DayWarning)))
    (h : process_dataframe df args = Except.ok (out, w)) :
    (args.extended_hours = false →
      ∀ r ∈ out.rows, MKT_OPEN ≤ timeOfRow r ∧ timeOfRow r < MKT_CLOSE) ∧
    (args.extended_hours = true →
      out.rows = sortRows (dropDupFirst (dateRangeFilter args.start_date args.end_date
        (normTicker df.rows)))) := by
  obtain ⟨hout, -, -, -, -⟩ := process_ok_elim h
  subst hout
  constructor
  · intro hext r hr
    exact (mem_preDedupRows_props (mem_cleaned hr)).2 hext
  · intro hext
    rw [processCore_rows, preDedupRows, hext, hoursFilter_true]

theorem session_window_filtering_witness :
    (∀ r ∈ c6out.rows, MKT_OPEN ≤ timeOfRow r ∧ timeOfRow r < MKT_CLOSE) ∧
    (⟨['A'], Per.sym ['D'], 300, 1⟩ : Row) ∉ c6out.rows :=
  ⟨(session_window_filtering c6df c5args c6out none rfl).1 rfl, by decide⟩

/-- Claim C4 (amended): re-running the pipeline on its own output returns
the output unchanged, provided the output is nonempty and its ticker
values are fixed points of the ticker normalization. -/
theorem cleaning_idempotent_on_clean_output (df0 df1 : DataFrame) (args : CleanArgs)
    (w : Option (List (Nat × DayWarning)))
    (h : process_dataframe df0 args = Except.ok (df1, w))
    (hne : df1.rows ≠ [])
    (hfix : ∀ r ∈ df1.rows, cleanTicker r.ticker = r.ticker) :
    process_dataframe df1 args = Except.ok (df1, w) := by
  obtain ⟨hout, hw, hne0, hper0, htc0⟩ := process_ok_elim h
  have hrows1 : df1.rows = sortRows (dropDupFirst (preDedupRows df0 args)) := by
    rw [hout]
    exact processCore_rows df0 args
  have hflag1 : df1.hasDateTime = true := by
    rw [hout]
    exact (processCore_flags df0 args).1
  have hflag2 : df1.hasDateAndTime = (df0.hasDateAndTime && args.keep_date_time) := by
    rw [hout]
    exact (processCore_flags df0 args).2
  have hmem1 : ∀ r ∈ df1.rows, r ∈ preDedupRows df0 args := by
    intro r hr
    rw [hout] at hr
    exact mem_cleaned hr
  have hperEq : ∀ r ∈ df1.rows, r.per = headPer df0.rows := by
    intro r hr
    obtain ⟨r0, hr0, hp, -⟩ := mem_preDedupRows_orig (hmem1 r hr)
    rw [hp]
    exact hper0 r0 hr0
  have hnorm : normTicker df1.rows = df1.rows := normTicker_eq_self hfix
  have hdate : dateRangeFilter args.start_date args.end_date df1.rows = df1.rows :=
    dateRangeFilter_eq_self fun r hr => (mem_preDedupRows_props (hmem1 r hr)).1
  have hhours : hoursFilter args.extended_hours df1.rows = df1.rows := by
    cases hext : args.extended_hours with
    | true => rfl
    | false =>
      exact hoursFilter_eq_self fun r hr => (mem_preDedupRows_props (hmem1 r hr)).2 hext
  have hpre1 : preDedupRows df1 args = df1.rows := by
    rw [preDedupRows, hnorm, hdate, hhours]
  have hnodup : (df1.rows.map Row.dt).Nodup := by
    rw [hrows1]
    exact (((sortRows_perm _).map Row.dt).nodup_iff).mpr (dropDupFirst_nodup _)
  have hsorted : List.Sorted rowLe df1.rows := by
    rw [hrows1]
    exact sortRows_sorted _
  have hdd : dropDupFirst df1.rows = df1.rows := dropDupFirst_eq_self hnodup
  have hsort1 : sortRows df1.rows = df1.rows := sortRows_eq_self hsorted
  have hhp : headPer df1.rows = headPer df0.rows := by
    cases hl : df1.rows with
    | nil => exact absurd hl hne
    | cons r0 rest =>
      show r0.per = headPer df0.rows
      exact hperEq r0 (by rw [hl]; exact List.mem_cons_self r0 rest)
  have hba : (df1.hasDateAndTime && args.keep_date_time) = df1.hasDateAndTime := by
    rw [hflag2]
    cases df0.hasDateAndTime <;> cases args.keep_date_time <;> rfl
  have hcr : (processCore df1 args).1.rows = df1.rows := by
    rw [processCore_rows, hpre1, hdd, hsort1]
  have hc1 : (processCore df1 args).1 = df1 := by
    refine DataFrame.ext ?_ ?_ ?_
    · rw [(processCore_flags df1 args).1, hflag1]
    · rw [(processCore_flags df1 args).2, hba]
    · exact hcr
  have hc2 : (processCore df1 args).2 = w := by
    rw [hw, processCore_snd df1 args, hpre1, hdd, hsort1, hhp, processCore_snd df0 args,
      ← hrows1]
  have hcore : processCore df1 args = (df1, w) := by
    calc processCore df1 args
        = ((processCore df1 args).1, (processCore df1 args).2) := rfl
      _ = (df1, w) := by rw [hc1, hc2]
  cases hl : df1.rows with
  | nil => exact absurd hl hne
  | cons r0 rest =>
    rw [process_dataframe_cons args hl]
    have hall : (r0 :: rest).all (fun r => r.per == r0.per) = true := by
      refine List.all_eq_true.mpr fun r hr => beq_iff_eq.mpr ?_
      rw [hperEq r (by rw [hl]; exact hr),
        ← hperEq r0 (by rw [hl]; exact List.mem_cons_self r0 rest)]
    rw [if_pos hall]
    have htc1 : (df1.hasDateAndTime || df1.hasDateTime) = true := by
      rw [hflag1, Bool.or_true]
    rw [if_pos htc1, hcore]

/-- Claim C4 counterexample: the ticker regex deletion is not idempotent,
so cleaning the (successfully cleaned) output of a run changes it again:
the cleaned ticker SPBFUT is itself deleted by the second run. -/
theorem cleaning_not_idempotent_counterexample :
    process_dataframe c4df0 c5args = Except.ok (c4df1, none) ∧
    process_dataframe c4df1 c5args = Except.ok (c4df2, none) ∧
    c4df2 ≠ c4df1 :=
  ⟨rfl, rfl, by decide⟩

theorem cleaning_idempotent_witness :
    process_dataframe c4wdf c5args = Except.ok (c4wdf, none) :=
  cleaning_idempotent_on_clean_output c4wdf c4wdf c5args none rfl (by decide) (by decide)

/-- Claim C8: per date, the gap detector reports the size of the
grid-minus-observed set with its least and greatest elements, and the size
of the observed-minus-grid set with its greatest element; dates with empty
sets produce no report; and the check runs exactly for the known minute
periods, never for symbolic ones. -/
theorem gap_detector_reports (rows : List Row) (pm : Nat) (stock : Bool) (d : Nat)
    (hd : d ∈ rows.map dateOfRow) :
    ((missingOf rows pm stock d = [] ∧ irregularOf rows pm stock d = []) →
      ∀ w, (d, w) ∉ intraday_data_check rows pm stock) ∧
    ((missingOf rows pm stock d ≠ [] ∨ irregularOf rows pm stock d ≠ []) →
      ∃ w, (d, w) ∈ intraday_data_check rows pm stock ∧
        (missingOf rows pm stock d ≠ [] →
          ∃ tfirst tlast,
            w.missing = some ((missingOf rows pm stock d).length, tfirst, tlast) ∧
            tfirst ∈ missingOf rows pm stock d ∧ tlast ∈ missingOf rows pm stock d ∧
            ∀ x ∈ missingOf rows pm stock d, tfirst ≤ x ∧ x ≤ tlast) ∧
        (missingOf rows pm stock d = [] → w.missing = none) ∧
        (irregularOf rows pm stock d ≠ [] →
          ∃ tlast, w.irregular = some ((irregularOf rows pm stock d).length, tlast) ∧
            tlast ∈ irregularOf rows pm stock d ∧
            ∀ x ∈ irregularOf rows pm stock d, x ≤ tlast) ∧
        (irregularOf rows pm stock d = [] → w.irregular = none)) ∧
    (∀ df args out ww, process_dataframe df args = Except.ok (out, ww) →
      ((∃ n, KNOWN_PERIODS_get (headPer df.rows) = some n ∧
          ww = some (intraday_data_check out.rows n args.stock)) ∨
        (KNOWN_PERIODS_get (headPer df.rows) = none ∧ ww = none))) ∧
    (∀ sy, KNOWN_PERIODS_get (Per.sym sy) = none) ∧
    (∀ n, (KNOWN_PERIODS_get (Per.num n)).isSome = true ↔ n ∈ [1, 2, 5, 10, 15, 30, 60]) := by
  have hdmem : d ∈ pySortedNat (pySet (rows.map dateOfRow)) :=
    (mem_pySortedNat _ d).mpr ((mem_pySet _ d).mpr hd)
  refine ⟨?_, ?_, ?_, fun sy => rfl, ?_⟩
  · rintro ⟨hm, hi⟩ w hmem
    obtain ⟨d2, hd2, heq⟩ := List.mem_filterMap.mp hmem
    by_cases hc : (missingOf rows pm stock d2).length ≠ 0 ∨
        (irregularOf rows pm stock d2).length ≠ 0
    · rw [dayWarningOf, if_pos hc] at heq
      simp only [Option.some.injEq, Prod.mk.injEq] at heq
      obtain ⟨rfl, -⟩ := heq
      rcases hc with hc | hc
      · rw [hm] at hc
        exact hc rfl
      · rw [hi] at hc
        exact hc rfl
    · rw [dayWarningOf, if_neg hc] at heq
      cases heq
  · intro hne
    have hc : (missingOf rows pm stock d).length ≠ 0 ∨
        (irregularOf rows pm stock d).length ≠ 0 := by
      rcases hne with hne | hne
      · exact Or.inl fun h0 => hne (List.length_eq_zero.mp h0)
      · exact Or.inr fun h0 => hne (List.length_eq_zero.mp h0)
    refine ⟨_, List.mem_filterMap.mpr ⟨d, hdmem, by rw [dayWarningOf, if_pos hc]⟩,
      ?_, ?_, ?_, ?_⟩
    · intro hm
      have hlen : (missingOf rows pm stock d).length ≠ 0 :=
        fun h0 => hm (List.length_eq_zero.mp h0)
      refine ⟨(pySortedNat (missingOf rows pm stock d)).headD 0,
        (pySortedNat (missingOf rows pm stock d)).getLastD 0, ?_, ?_, ?_, ?_⟩
      · show (if (missingOf rows pm stock d).length ≠ 0 then _ else none) = _
        rw [if_pos hlen]
      · exact ((sorted_min_max _ hm).1).1
      · exact ((sorted_min_max _ hm).2).1
      · intro x hx
        exact ⟨((sorted_min_max _ hm).1).2 x hx, ((sorted_min_max _ hm).2).2 x hx⟩
    · intro hm
      show (if (missingOf rows pm stock d).length ≠ 0 then _ else none) = none
      rw [if_neg (by rw [hm]; simp)]
    · intro hi
      have hlen : (irregularOf rows pm stock d).length ≠ 0 :=
        fun h0 => hi (List.length_eq_zero.mp h0)
      refine ⟨(pySortedNat (irregularOf rows pm stock d)).getLastD 0, ?_, ?_, ?_⟩
      · show (if (irregularOf rows pm stock d).length ≠ 0 then _ else none) = _
        rw [if_pos hlen]
      · exact ((sorted_min_max _ hi).2).1
      · intro x hx
        exact ((sorted_min_max _ hi).2).2 x hx
    · intro hi
      show (if (irregularOf rows pm stock d).length ≠ 0 then _ else none) = none
      rw [if_neg (by rw [hi]; simp)]
  · intro df args out ww hok
    obtain ⟨hout, hw, -, -, -⟩ := process_ok_elim hok
    cases hk : KNOWN_PERIODS_get (headPer df.rows) with
    | some pm2 =>
      refine Or.inl ⟨pm2, rfl, ?_⟩
      rw [hw, processCore_snd, hk, hout, processCore_rows]
    | none =>
      refine Or.inr ⟨rfl, ?_⟩
      rw [hw, processCore_snd, hk]
  · intro n
    show (if n ∈ [1, 2, 5, 10, 15, 30, 60] then some n else none).isSome = true ↔ _
    by_cases hn : n ∈ [1, 2, 5, 10, 15, 30, 60]
    · rw [if_pos hn]
      simp [hn]
    · rw [if_neg hn]
      simp [hn]

theorem gap_detector_reports_witness :
    (0 ∈ c8rows.map dateOfRow) ∧
    ∃ w, (0, w) ∈ intraday_data_check c8rows 5 true ∧ w.missing = some (1, 720, 720) := by
  have H := gap_detector_reports c8rows 5 true 0 (by decide)
  refine ⟨by decide, ?_⟩
  obtain ⟨w, hw, hm, -, -, -⟩ := H.2.1 (Or.inl (by decide))
  obtain ⟨tf, tl, heq, hf, hl, -⟩ := hm (by decide)
  have hmiss : missingOf c8rows 5 true 0 = [720] := by decide
  rw [hmiss] at heq hf hl
  rw [List.mem_singleton] at hf hl
  subst hf
  subst hl
  exact ⟨w, hw, heq⟩

theorem mem_datesOf {l : List Row} {d : Nat} :
    d ∈ datesOf l ↔ ∃ r ∈ l, dateOfRow r = d := by
  rw [datesOf, List.mem_toFinset, List.mem_map]

theorem datesOf_perm {l l2 : List Row} (h : List.Perm l l2) : datesOf l = datesOf l2 := by
  ext a
  rw [datesOf, datesOf, List.mem_toFinset, List.mem_toFinset, (h.map dateOfRow).mem_iff]

theorem datesOf_append (a b : List Row) : datesOf (a ++ b) = datesOf a ∪ datesOf b := by
  rw [datesOf, datesOf, datesOf, List.map_append, List.toFinset_append]

theorem datesOf_filter_mem (l : List Row) (S : Finset Nat) :
    datesOf (l.filter (fun r => decide (dateOfRow r ∈ S))) = datesOf l ∩ S := by
  ext d
  rw [Finset.mem_inter, mem_datesOf, mem_datesOf]
  constructor
  · rintro ⟨r, hr, rfl⟩
    obtain ⟨hmem, hp⟩ := List.mem_filter.mp hr
    exact ⟨⟨r, hmem, rfl⟩, of_decide_eq_true hp⟩
  · rintro ⟨⟨r, hr, rfl⟩, hS⟩
    exact ⟨r, List.mem_filter.mpr ⟨hr, decide_eq_true hS⟩, rfl⟩

theorem df1Dates_subset (l1 l2 : List Row) : df1Dates l1 l2 ⊆ datesOf l1 := by
  intro d hd
  rcases Finset.mem_union.mp hd with hd | hd
  · exact (Finset.mem_sdiff.mp hd).1
  · exact (Finset.mem_inter.mp (Finset.mem_filter.mp hd).1).1

theorem df2Dates_subset (l1 l2 : List Row) : df2Dates l1 l2 ⊆ datesOf l2 :=
  fun d hd => (Finset.mem_sdiff.mp hd).1

theorem dfDates_union (l1 l2 : List Row) :
    df1Dates l1 l2 ∪ df2Dates l1 l2 = datesOf l1 ∪ datesOf l2 := by
  ext d
  simp only [df2Dates, Finset.mem_union, Finset.mem_sdiff]
  constructor
  · rintro (hd | ⟨hd, -⟩)
    · exact Or.inl (df1Dates_subset l1 l2 hd)
    · exact Or.inr hd
  · rintro (hd | hd)
    · by_cases h2 : d ∈ datesOf l2
      · by_cases hv : 0 ≤ wrap64 (dailyVol l1 d - dailyVol l2 d)
        · exact Or.inl (Finset.mem_union.mpr (Or.inr
            (Finset.mem_filter.mpr ⟨Finset.mem_inter.mpr ⟨hd, h2⟩, hv⟩)))
        · refine Or.inr ⟨h2, fun hD1 => ?_⟩
          rcases Finset.mem_union.mp hD1 with hD | hD
          · exact (Finset.mem_sdiff.mp hD).2 h2
          · exact hv (Finset.mem_filter.mp hD).2
      · exact Or.inl (Finset.mem_union.mpr (Or.inl (Finset.mem_sdiff.mpr ⟨hd, h2⟩)))
    · by_cases hD1 : d ∈ df1Dates l1 l2
      · exact Or.inl hD1
      · exact Or.inr ⟨hd, hD1⟩

theorem mergePick_dates (l1 l2 : List Row) :
    datesOf (mergePick l1 l2) = datesOf l1 ∪ datesOf l2 := by
  rw [mergePick, datesOf_append, datesOf_filter_mem, datesOf_filter_mem,
    Finset.inter_eq_right.mpr (df1Dates_subset l1 l2),
    Finset.inter_eq_right.mpr (df2Dates_subset l1 l2)]
  exact dfDates_union l1 l2

theorem merge_ok_elim {df1 df2 : MDataFrame} {args : MergeArgs} {out : List Row}
    (h : merge_data df1 df2 args = Except.ok out) :
    out = sortRows (mergePick (dateRangeFilter args.start_date args.end_date df1.rows)
      (dateRangeFilter args.start_date args.end_date df2.rows)) := by
  unfold merge_data at h
  split at h
  · cases h
  · split at h
    · cases h
    · split at h
      · cases h
      · split at h
        · cases h
        · split at h
          · cases h
          · cases h
            rfl

/-- Claim C10: the merged output covers exactly the union of the calendar
dates of the two date-restricted inputs. -/
theorem merge_preserves_dates (df1 df2 : MDataFrame) (args : MergeArgs) (out : List Row)
    (h : merge_data df1 df2 args = Except.ok out) :
    datesOf out =
      datesOf (dateRangeFilter args.start_date args.end_date df1.rows) ∪
        datesOf (dateRangeFilter args.start_date args.end_date df2.rows) := by
  rw [merge_ok_elim h, datesOf_perm (sortRows_perm _), mergePick_dates]

theorem merge_preserves_dates_witness :
    datesOf [⟨['A'], Per.num 5, 600, 100⟩, ⟨['C'], Per.num 5, 2040, 90⟩] =
      datesOf (dateRangeFilter none none mwA.rows) ∪
        datesOf (dateRangeFilter none none mwC.rows) :=
  merge_preserves_dates mwA mwC ⟨none, none⟩ _ rfl

end Qutils
